import Mathlib

/-!
Verification of the balance-netting ledger engine of the bill-splitter
repository (`src/backend/tools/data_tools.py`).

Shallow embedding notes:
* A Python adjacency map `net[from][to] = amount_cents`
  (`Dict[str, Dict[str, int]]`, absent key = no edge) is embedded as a total
  function `String → String → Int` where the value `0` means "edge absent".
  This is exact with respect to `_get_edge` (which returns `0` for absent
  entries) and `_set_edge` (which deletes an entry when the value is `≤ 0`
  and stores it otherwise): the dictionary layer (including removal of empty
  inner maps) is observationally equivalent to the function it denotes.
* Monetary amounts are integer cents (`Int`).  The ledger tools call
  `to_cents` on their `amount` arguments; on `int` inputs `to_cents` is the
  identity, and all claims below concern cent-valued inputs, so the tools
  are embedded directly over cents.
* Store fields that have no effect on balances or on the claims under
  verification (ids generated from uuids, titles, notes, timestamps,
  currency codes, item metadata) are elided from the records.
-/

/-- The adjacency map `net[from][to] = amount_cents`; `0` encodes absence. -/
def NetMap : Type := String → String → Int

/-- The empty adjacency map (`{}` in the store). -/
def emptyNet : NetMap := fun _ _ => 0

/-- `_get_edge` of `data_tools.py`: amount recorded from `a` to `b`, `0` if absent. -/
def get_edge (net : NetMap) (a b : String) : Int := net a b

/-- `_set_edge` of `data_tools.py`: set the edge `a -> b`, deleting it (value `0`)
when the value is `≤ 0`. -/
def set_edge (net : NetMap) (a b : String) (value : Int) : NetMap :=
  fun x y => if x = a ∧ y = b then (if value ≤ 0 then 0 else value) else net x y

/-- The positive-delta body of `apply_net_delta` (the code after the two early
returns): add `d` to the forward edge, then cancel the opposing edges by
`cancel = min fwd rev`. -/
def applyPosDelta (net : NetMap) (from_id to_id : String) (d : Int) : NetMap :=
  let net1 := set_edge net from_id to_id (get_edge net from_id to_id + d)
  let fwd := get_edge net1 from_id to_id
  let rev := get_edge net1 to_id from_id
  let cancel := min fwd rev
  if 0 < cancel then
    set_edge (set_edge net1 from_id to_id (fwd - cancel)) to_id from_id (rev - cancel)
  else net1

/-- `apply_net_delta` of `data_tools.py`.  The single recursive call
`apply_net_delta(net, to_id, from_id, -delta)` taken when `delta < 0` lands in
the positive branch, so the recursion is unrolled into one flip. -/
def apply_net_delta (net : NetMap) (from_id to_id : String) (delta_cents : Int) : NetMap :=
  if from_id = to_id ∨ delta_cents = 0 then net
  else if delta_cents < 0 then applyPosDelta net to_id from_id (-delta_cents)
  else applyPosDelta net from_id to_id delta_cents

/-- All stored amounts are nonnegative (absence is `0`); every adjacency map
reachable through `_set_edge` satisfies this. -/
def ValidNet (net : NetMap) : Prop := ∀ a b, 0 ≤ net a b

/-- For every ordered pair at least one direction is absent. -/
def PairNetted (net : NetMap) : Prop := ∀ a b, net a b = 0 ∨ net b a = 0

theorem set_edge_same (net : NetMap) (a b : String) (v : Int) :
    set_edge net a b v a b = if v ≤ 0 then 0 else v := by
  simp [set_edge]

theorem set_edge_other (net : NetMap) (a b : String) (v : Int) (x y : String)
    (h : ¬(x = a ∧ y = b)) : set_edge net a b v x y = net x y := by
  simp [set_edge, h]

theorem applyPosDelta_edges (net : NetMap) (f t : String) (d : Int)
    (hft : f ≠ t) (hd : 0 < d) (hv : ValidNet net) :
    applyPosDelta net f t d f t = net f t + d - min (net f t + d) (net t f)
    ∧ applyPosDelta net f t d t f = net t f - min (net f t + d) (net t f)
    ∧ ∀ x y, ¬(x = f ∧ y = t) → ¬(x = t ∧ y = f) →
        applyPosDelta net f t d x y = net x y := by
  have hvf := hv f t
  have hvt := hv t f
  have htf : ¬(t = f ∧ f = t) := fun h => hft h.1.symm
  have hft2 : ¬(f = t ∧ t = f) := fun h => hft h.1
  have hpos : ¬(net f t + d ≤ 0) := by omega
  have h1 : set_edge net f t (net f t + d) f t = net f t + d := by
    rw [set_edge_same, if_neg hpos]
  have h2 : set_edge net f t (net f t + d) t f = net t f :=
    set_edge_other net f t (net f t + d) t f htf
  have hm1 : min (net f t + d) (net t f) ≤ net f t + d := min_le_left _ _
  have hm2 : min (net f t + d) (net t f) ≤ net t f := min_le_right _ _
  have hm0 : 0 ≤ min (net f t + d) (net t f) := le_min (by omega) hvt
  simp only [applyPosDelta, get_edge, h1, h2]
  by_cases hc : 0 < min (net f t + d) (net t f)
  · rw [if_pos hc]
    refine ⟨?_, ?_, ?_⟩
    · rw [set_edge_other _ _ _ _ _ _ hft2, set_edge_same]
      split
      · omega
      · rfl
    · rw [set_edge_same]
      split
      · omega
      · rfl
    · intro x y hxy1 hxy2
      rw [set_edge_other _ _ _ _ _ _ hxy2, set_edge_other _ _ _ _ _ _ hxy1,
        set_edge_other _ _ _ _ _ _ hxy1]
  · rw [if_neg hc]
    refine ⟨?_, ?_, ?_⟩
    · rw [h1]; omega
    · rw [h2]; omega
    · intro x y hxy1 hxy2
      rw [set_edge_other _ _ _ _ _ _ hxy1]

theorem apply_net_delta_cases (net : NetMap) (f t : String) (d : Int)
    (hv : ValidNet net) :
    (apply_net_delta net f t d = net ∧ (f = t ∨ d = 0))
    ∨ (f ≠ t ∧ d ≠ 0
        ∧ apply_net_delta net f t d f t - apply_net_delta net f t d t f
            = (net f t - net t f) + d
        ∧ 0 ≤ apply_net_delta net f t d f t
        ∧ 0 ≤ apply_net_delta net f t d t f
        ∧ (apply_net_delta net f t d f t = 0 ∨ apply_net_delta net f t d t f = 0)
        ∧ ∀ x y, ¬(x = f ∧ y = t) → ¬(x = t ∧ y = f) →
            apply_net_delta net f t d x y = net x y) := by
  unfold apply_net_delta
  by_cases h0 : f = t ∨ d = 0
  · rw [if_pos h0]; exact Or.inl ⟨rfl, h0⟩
  · rw [if_neg h0]
    push_neg at h0
    obtain ⟨hft, hd0⟩ := h0
    right
    refine ⟨hft, hd0, ?_⟩
    by_cases hneg : d < 0
    · rw [if_pos hneg]
      obtain ⟨e1, e2, e3⟩ :=
        applyPosDelta_edges net t f (-d) (Ne.symm hft) (by omega) hv
      have hvt := hv t f
      have hvf := hv f t
      have hm1 : min (net t f + -d) (net f t) ≤ net t f + -d := min_le_left _ _
      have hm2 : min (net t f + -d) (net f t) ≤ net f t := min_le_right _ _
      have hm3 : min (net t f + -d) (net f t) = net t f + -d
          ∨ min (net t f + -d) (net f t) = net f t := min_choice _ _
      refine ⟨by rw [e1, e2]; omega, by rw [e2]; omega, by rw [e1]; omega, ?_, ?_⟩
      · rw [e1, e2]; omega
      · intro x y hxy1 hxy2
        exact e3 x y hxy2 hxy1
    · rw [if_neg hneg]
      obtain ⟨e1, e2, e3⟩ :=
        applyPosDelta_edges net f t d hft (by omega) hv
      have hvt := hv t f
      have hvf := hv f t
      have hm1 : min (net f t + d) (net t f) ≤ net f t + d := min_le_left _ _
      have hm2 : min (net f t + d) (net t f) ≤ net t f := min_le_right _ _
      have hm3 : min (net f t + d) (net t f) = net f t + d
          ∨ min (net f t + d) (net t f) = net t f := min_choice _ _
      refine ⟨by rw [e1, e2]; omega, by rw [e1]; omega, by rw [e2]; omega, ?_, ?_⟩
      · rw [e1, e2]; omega
      · exact e3

/-- One call of `apply_net_delta`: `(from_id, to_id, delta_cents)`. -/
abbrev Delta : Type := String × String × Int

/-- Apply a sequence of `apply_net_delta` calls in order. -/
def applyDeltas (l : List Delta) (net : NetMap) : NetMap :=
  l.foldl (fun n e => apply_net_delta n e.1 e.2.1 e.2.2) net

/-- The signed total that a sequence of deltas contributes to the ordered pair
`(a, b)`: deltas along `a -> b` count positively, deltas along `b -> a`
negatively. -/
def signedSum (a b : String) : List Delta → Int
  | [] => 0
  | e :: l =>
      ((if e.1 = a ∧ e.2.1 = b then e.2.2 else 0)
        - (if e.1 = b ∧ e.2.1 = a then e.2.2 else 0)) + signedSum a b l

theorem applyDeltas_nil (net : NetMap) : applyDeltas [] net = net := rfl

theorem applyDeltas_cons (e : Delta) (l : List Delta) (net : NetMap) :
    applyDeltas (e :: l) net = applyDeltas l (apply_net_delta net e.1 e.2.1 e.2.2) := rfl

theorem applyDeltas_append (l1 l2 : List Delta) (net : NetMap) :
    applyDeltas (l1 ++ l2) net = applyDeltas l2 (applyDeltas l1 net) :=
  List.foldl_append _ _ _ _

theorem signedSum_append (a b : String) (l1 l2 : List Delta) :
    signedSum a b (l1 ++ l2) = signedSum a b l1 + signedSum a b l2 := by
  induction l1 with
  | nil => simp [signedSum]
  | cons e l ih =>
    rw [List.cons_append, signedSum, signedSum, ih]
    ring

theorem applyDeltas_cons3 (f t : String) (d : Int) (l : List Delta) (net : NetMap) :
    applyDeltas ((f, t, d) :: l) net = applyDeltas l (apply_net_delta net f t d) := rfl

theorem signedSum_cons3 (a b f t : String) (d : Int) (l : List Delta) :
    signedSum a b ((f, t, d) :: l)
      = ((if f = a ∧ t = b then d else 0) - (if f = b ∧ t = a then d else 0))
          + signedSum a b l := rfl

/-- Main invariant of the netting engine: validity and pairwise netting are
preserved by any delta sequence, and the pair difference evolves by exactly
the signed sum of the applied deltas. -/
theorem applyDeltas_invariant (l : List Delta) :
    ∀ net : NetMap, ValidNet net → PairNetted net →
      ValidNet (applyDeltas l net) ∧ PairNetted (applyDeltas l net)
      ∧ ∀ a b, a ≠ b →
          applyDeltas l net a b - applyDeltas l net b a
            = (net a b - net b a) + signedSum a b l := by
  induction l with
  | nil =>
    intro net hv hp
    exact ⟨hv, hp, fun a b _ => by simp [applyDeltas, signedSum]⟩
  | cons e l ih =>
    intro net hv hp
    obtain ⟨f, t, d⟩ := e
    rw [applyDeltas_cons3]
    rcases apply_net_delta_cases net f t d hv with ⟨heq, hft⟩ | hfacts
    · rw [heq]
      obtain ⟨hv2, hp2, hs2⟩ := ih net hv hp
      refine ⟨hv2, hp2, fun a b hab => ?_⟩
      rw [hs2 a b hab, signedSum_cons3]
      have hz1 : (if f = a ∧ t = b then d else 0) = 0 := by
        rcases hft with hft | hd0
        · exact if_neg (fun h => hab ((h.1.symm.trans hft).trans h.2))
        · rw [hd0]; simp
      have hz2 : (if f = b ∧ t = a then d else 0) = 0 := by
        rcases hft with hft | hd0
        · exact if_neg (fun h => hab ((h.2.symm.trans hft.symm).trans h.1))
        · rw [hd0]; simp
      rw [hz1, hz2]
      ring
    · obtain ⟨hft, hd0, hsg, hnn1, hnn2, hnet, hoth⟩ := hfacts
      set net2 := apply_net_delta net f t d with hnet2
      have hv2 : ValidNet net2 := by
        intro x y
        by_cases hxy1 : x = f ∧ y = t
        · obtain ⟨hx, hy⟩ := hxy1; rw [hx, hy]; exact hnn1
        · by_cases hxy2 : x = t ∧ y = f
          · obtain ⟨hx, hy⟩ := hxy2; rw [hx, hy]; exact hnn2
          · rw [hoth x y hxy1 hxy2]; exact hv x y
      have hp2 : PairNetted net2 := by
        intro x y
        by_cases hxy1 : x = f ∧ y = t
        · obtain ⟨hx, hy⟩ := hxy1; rw [hx, hy]; exact hnet
        · by_cases hxy2 : x = t ∧ y = f
          · obtain ⟨hx, hy⟩ := hxy2; rw [hx, hy]
            rcases hnet with h | h
            · exact Or.inr h
            · exact Or.inl h
          · have hyx1 : ¬(y = f ∧ x = t) := by
              intro h; exact hxy2 ⟨h.2, h.1⟩
            have hyx2 : ¬(y = t ∧ x = f) := by
              intro h; exact hxy1 ⟨h.2, h.1⟩
            rw [hoth x y hxy1 hxy2, hoth y x hyx1 hyx2]
            exact hp x y
      obtain ⟨hv3, hp3, hs3⟩ := ih net2 hv2 hp2
      refine ⟨hv3, hp3, fun a b hab => ?_⟩
      rw [hs3 a b hab, signedSum_cons3]
      have hstep : net2 a b - net2 b a
          = (net a b - net b a)
            + ((if f = a ∧ t = b then d else 0) - (if f = b ∧ t = a then d else 0)) := by
        by_cases hab1 : a = f ∧ b = t
        · obtain ⟨ha, hb⟩ := hab1
          rw [if_pos ⟨ha.symm, hb.symm⟩, if_neg (fun h => hft (h.1.trans hb)), ha, hb, hsg]
          ring
        · by_cases hab2 : a = t ∧ b = f
          · obtain ⟨ha, hb⟩ := hab2
            rw [if_neg (fun h => hft (h.1.trans ha)), if_pos ⟨hb.symm, ha.symm⟩, ha, hb]
            omega
          · have hba1 : ¬(b = f ∧ a = t) := by
              intro h; exact hab2 ⟨h.2, h.1⟩
            have hba2 : ¬(b = t ∧ a = f) := by
              intro h; exact hab1 ⟨h.2, h.1⟩
            have e1 : (if f = a ∧ t = b then d else 0) = 0 := by
              rw [if_neg (fun h => hab1 ⟨h.1.symm, h.2.symm⟩)]
            have e2 : (if f = b ∧ t = a then d else 0) = 0 := by
              rw [if_neg (fun h => hba1 ⟨h.1.symm, h.2.symm⟩)]
            rw [e1, e2, hoth a b hab1 hab2, hoth b a hba1 hba2]
            ring
      rw [hstep]
      ring

theorem emptyNet_valid : ValidNet emptyNet := fun _ _ => le_refl 0

theorem emptyNet_netted : PairNetted emptyNet := fun _ _ => Or.inl rfl

/-- Characterization of any net map built from the empty map by a sequence of
`apply_net_delta` calls. -/
theorem applyDeltas_char (l : List Delta) :
    ValidNet (applyDeltas l emptyNet) ∧ PairNetted (applyDeltas l emptyNet)
    ∧ ∀ a b, a ≠ b →
        applyDeltas l emptyNet a b - applyDeltas l emptyNet b a = signedSum a b l := by
  obtain ⟨hv, hp, hs⟩ := applyDeltas_invariant l emptyNet emptyNet_valid emptyNet_netted
  refine ⟨hv, hp, fun a b hab => ?_⟩
  rw [hs a b hab]
  show 0 - 0 + signedSum a b l = signedSum a b l
  ring

theorem applyDeltas_diag (l : List Delta) (a : String) :
    applyDeltas l emptyNet a a = 0 := by
  rcases (applyDeltas_char l).2.1 a a with h | h <;> exact h

/-- A nonnegative, pairwise-netted pair of edge values is uniquely determined
by its difference. -/
theorem net_value_determined {x1 y1 x2 y2 s : Int}
    (hx1 : 0 ≤ x1) (hy1 : 0 ≤ y1) (hx2 : 0 ≤ x2) (hy2 : 0 ≤ y2)
    (h1 : x1 = 0 ∨ y1 = 0) (h2 : x2 = 0 ∨ y2 = 0)
    (e1 : x1 - y1 = s) (e2 : x2 - y2 = s) : x1 = x2 := by
  rcases h1 with h1 | h1 <;> rcases h2 with h2 | h2 <;> omega

/-- C2: for every sequence of `apply_net_delta` calls starting from an empty
net map and every pair of distinct user ids `(a, b)`, the resulting net map
never contains both a positive edge `a -> b` and a positive edge `b -> a`. -/
theorem netting_no_mutual_positive_edges (l : List Delta) (a b : String)
    (hab : a ≠ b) :
    ¬(0 < applyDeltas l emptyNet a b ∧ 0 < applyDeltas l emptyNet b a) := by
  intro ⟨h1, h2⟩
  rcases (applyDeltas_char l).2.1 a b with h | h <;> omega

theorem netting_no_mutual_positive_edges_witness :
    ¬(0 < applyDeltas [("u1", "u2", 700), ("u2", "u1", 300)] emptyNet "u1" "u2"
      ∧ 0 < applyDeltas [("u1", "u2", 700), ("u2", "u1", 300)] emptyNet "u2" "u1") :=
  netting_no_mutual_positive_edges [("u1", "u2", 700), ("u2", "u1", 300)] "u1" "u2"
    (by decide)

/-- Two delta sequences with the same per-pair signed sums produce the same
net map from empty (order independence of netting). -/
theorem applyDeltas_congr_signedSum (l1 l2 : List Delta)
    (hsum : ∀ a b, signedSum a b l1 = signedSum a b l2) (a b : String) :
    applyDeltas l1 emptyNet a b = applyDeltas l2 emptyNet a b := by
  by_cases hab : a = b
  · rw [hab, applyDeltas_diag, applyDeltas_diag]
  · obtain ⟨hv1, hp1, hs1⟩ := applyDeltas_char l1
    obtain ⟨hv2, hp2, hs2⟩ := applyDeltas_char l2
    exact net_value_determined (hv1 a b) (hv1 b a) (hv2 a b) (hv2 b a)
      (hp1 a b) (hp2 a b) (hs1 a b hab) ((hs2 a b hab).trans (hsum a b).symm)

/-- C9: `apply_net_delta net a b d` (on a valid net map, i.e. one whose stored
amounts are nonnegative as in every reachable store) changes the signed balance
`net[a][b] - net[b][a]` of the pair `{a, b}` by exactly `d`, leaves every edge
not between `a` and `b` unchanged (hence the signed balance of every other
unordered pair unchanged), and consequently the net map reached from empty is
fully determined by the per-pair signed delta sums, independently of order. -/
theorem apply_net_delta_pair_delta_and_order_independence :
    (∀ (net : NetMap) (a b : String) (d : Int), a ≠ b → ValidNet net →
      (apply_net_delta net a b d a b - apply_net_delta net a b d b a
          = (net a b - net b a) + d)
      ∧ (∀ x y, ¬(x = a ∧ y = b) → ¬(x = b ∧ y = a) →
          apply_net_delta net a b d x y = net x y))
    ∧ (∀ l1 l2 : List Delta, (∀ a b, signedSum a b l1 = signedSum a b l2) →
        ∀ a b, applyDeltas l1 emptyNet a b = applyDeltas l2 emptyNet a b) := by
  constructor
  · intro net a b d hab hv
    rcases apply_net_delta_cases net a b d hv with ⟨heq, hcase⟩ | hfacts
    · rw [heq]
      rcases hcase with hcase | hcase
      · exact absurd hcase hab
      · exact ⟨by rw [hcase]; ring, fun x y _ _ => rfl⟩
    · obtain ⟨_, _, hsg, _, _, _, hoth⟩ := hfacts
      exact ⟨hsg, hoth⟩
  · exact fun l1 l2 hsum a b => applyDeltas_congr_signedSum l1 l2 hsum a b

theorem apply_net_delta_pair_delta_and_order_independence_witness :
    (apply_net_delta emptyNet "u1" "u2" 250 "u1" "u2"
        - apply_net_delta emptyNet "u1" "u2" 250 "u2" "u1"
      = (emptyNet "u1" "u2" - emptyNet "u2" "u1") + 250)
    ∧ (∀ x y, ¬(x = "u1" ∧ y = "u2") → ¬(x = "u2" ∧ y = "u1") →
        apply_net_delta emptyNet "u1" "u2" 250 x y = emptyNet x y) :=
  (apply_net_delta_pair_delta_and_order_independence.1 emptyNet "u1" "u2" 250
    (by decide) (fun _ _ => le_refl 0))

/-- One debt edge of a transaction (`debts[i]` in the store). -/
structure Debt where
  from_user_id : String
  to_user_id : String
  amount_cents : Int
  deriving DecidableEq, Repr

/-- One share of a transaction split (`split.shares[i]` in the store). -/
structure Share where
  user_id : String
  share_amount_cents : Int
  deriving DecidableEq, Repr

/-- `split` object of a transaction. -/
structure Split where
  method : String
  participant_ids : List String
  shares : List Share
  deriving DecidableEq, Repr

/-- A transaction record.  Fields irrelevant to every claim (id, title,
created_at, currency, notes, items, metadata) are elided. -/
structure Tx where
  group_id : String
  total_amount_cents : Int
  paid_by : String
  split : Split
  debts : List Debt
  deriving DecidableEq, Repr

/-- A payment record (id, created_at, currency, notes elided). -/
structure Payment where
  group_id : String
  from_user_id : String
  to_user_id : String
  amount_cents : Int
  deriving DecidableEq, Repr

/-- The `balances` object of the store: one net map per group plus the global
net map.  Group entries absent from the on-disk dict denote the empty map, so
`by_group` is embedded as a total function. -/
structure Balances where
  byGroup : String → NetMap
  global_net : NetMap

/-- `{"by_group": {}, "global": {"net": {}}}`. -/
def emptyBalances : Balances :=
  { byGroup := fun _ => emptyNet, global_net := emptyNet }

/-- `update_balances_for_debt` of `data_tools.py`: apply one delta to the
per-group map of `group_id` and to the global map (`updated_at` elided). -/
def update_balances_for_debt (b : Balances) (group_id from_id to_id : String)
    (amount_cents : Int) : Balances :=
  { byGroup := fun g =>
      if g = group_id then apply_net_delta (b.byGroup g) from_id to_id amount_cents
      else b.byGroup g,
    global_net := apply_net_delta b.global_net from_id to_id amount_cents }

/-- The per-debt update loop shared by both transaction tools and by
`tool_rebuild_balances`. -/
def applyTxDebts (b : Balances) (group_id : String) (debts : List Debt) : Balances :=
  debts.foldl
    (fun b d => update_balances_for_debt b group_id d.from_user_id d.to_user_id d.amount_cents)
    b

/-- An entry of the ledger's append-only event history: a recorded
transaction or a recorded payment. -/
inductive Event where
  | tx : Tx → Event
  | pay : Payment → Event

/-- The incremental balance update performed at recording time: a
transaction applies each of its debts, a payment applies its amount negated. -/
def applyEvent (b : Balances) : Event → Balances
  | .tx t => applyTxDebts b t.group_id t.debts
  | .pay p =>
      update_balances_for_debt b p.group_id p.from_user_id p.to_user_id (-p.amount_cents)

/-- A registered user (`{id, name}`). -/
structure User where
  id : String
  name : String
  deriving DecidableEq, Repr

/-- A group record (`{id, name, member_ids}`); named `GroupRec` because `Group`
is taken by Mathlib. -/
structure GroupRec where
  id : String
  name : String
  member_ids : List String
  deriving DecidableEq, Repr

/-- The store document (`schema_version`, `app` and timestamps elided). -/
structure Store where
  users : List User
  groups : List GroupRec
  transactions : List Tx
  payments : List Payment
  balances : Balances

/-- Membership test behind `require_user` (`index_by_id(store["users"])`). -/
def userExists (s : Store) (user_id : String) : Bool :=
  s.users.any (fun u => u.id = user_id)

/-- Membership test behind `require_group`. -/
def groupExists (s : Store) (group_id : String) : Bool :=
  s.groups.any (fun g => g.id = group_id)

/-- `require_user` of `data_tools.py`. -/
def require_user (s : Store) (user_id : String) : Except String Unit :=
  if userExists s user_id then .ok () else .error ("Unknown user_id: " ++ user_id)

/-- `require_group` of `data_tools.py`. -/
def require_group (s : Store) (group_id : String) : Except String Unit :=
  if groupExists s group_id then .ok () else .error ("Unknown group_id: " ++ group_id)

/-- The `for uid in participant_ids: require_user(store, uid)` loop. -/
def require_users (s : Store) : List String → Except String Unit
  | [] => .ok ()
  | u :: rest => do
      require_user s u
      require_users s rest

/-- `tool_rebuild_balances` of `data_tools.py`: reset the balances object,
replay every transaction's debts in order, then every payment negated, in
append order. -/
def tool_rebuild_balances (store : Store) : Store :=
  let b1 := store.transactions.foldl (fun b t => applyTxDebts b t.group_id t.debts)
    emptyBalances
  let b2 := store.payments.foldl
    (fun b p =>
      update_balances_for_debt b p.group_id p.from_user_id p.to_user_id (-p.amount_cents))
    b1
  { store with balances := b2 }

/-- The transactions of an event history, in order. -/
def txEvents : List Event → List Tx
  | [] => []
  | .tx t :: h => t :: txEvents h
  | .pay _ :: h => txEvents h

/-- The payments of an event history, in order. -/
def payEvents : List Event → List Payment
  | [] => []
  | .tx _ :: h => payEvents h
  | .pay p :: h => p :: payEvents h

/-- The store reached by recording the events of `h` in order: transactions
and payments are appended to their lists, and the balance graph is maintained
incrementally by applying each event's deltas at recording time. -/
def storeOfHistory (h : List Event) : Store :=
  { users := [], groups := [], transactions := txEvents h, payments := payEvents h,
    balances := h.foldl applyEvent emptyBalances }

/-- The deltas an event applies to the global net map. -/
def eventDeltas : Event → List Delta
  | .tx t => t.debts.map (fun d => (d.from_user_id, d.to_user_id, d.amount_cents))
  | .pay p => [(p.from_user_id, p.to_user_id, -p.amount_cents)]

/-- The group a record belongs to. -/
def eventGroupId : Event → String
  | .tx t => t.group_id
  | .pay p => p.group_id

/-- The deltas an event applies to the net map of group `g`. -/
def eventGroupDeltas (g : String) (e : Event) : List Delta :=
  if eventGroupId e = g then eventDeltas e else []

theorem update_balances_global (b : Balances) (gid f t : String) (amt : Int) :
    (update_balances_for_debt b gid f t amt).global_net
      = apply_net_delta b.global_net f t amt := rfl

theorem update_balances_byGroup (b : Balances) (gid f t : String) (amt : Int)
    (g : String) :
    (update_balances_for_debt b gid f t amt).byGroup g
      = if g = gid then apply_net_delta (b.byGroup g) f t amt else b.byGroup g := rfl

theorem applyTxDebts_global (gid : String) (ds : List Debt) :
    ∀ b : Balances, (applyTxDebts b gid ds).global_net
      = applyDeltas (ds.map (fun d => (d.from_user_id, d.to_user_id, d.amount_cents)))
          b.global_net := by
  induction ds with
  | nil => intro b; rfl
  | cons d ds ih =>
    intro b
    show (applyTxDebts (update_balances_for_debt b gid d.from_user_id d.to_user_id
        d.amount_cents) gid ds).global_net = _
    rw [ih, List.map_cons, applyDeltas_cons3, update_balances_global]

theorem applyTxDebts_byGroup (gid : String) (ds : List Debt) (g : String) :
    ∀ b : Balances, (applyTxDebts b gid ds).byGroup g
      = if g = gid then
          applyDeltas (ds.map (fun d => (d.from_user_id, d.to_user_id, d.amount_cents)))
            (b.byGroup g)
        else b.byGroup g := by
  induction ds with
  | nil => intro b; by_cases hg : g = gid <;> simp [applyTxDebts, applyDeltas, hg]
  | cons d ds ih =>
    intro b
    show (applyTxDebts (update_balances_for_debt b gid d.from_user_id d.to_user_id
        d.amount_cents) gid ds).byGroup g = _
    rw [ih, update_balances_byGroup]
    by_cases hg : g = gid
    · rw [if_pos hg, if_pos hg, if_pos hg, List.map_cons, applyDeltas_cons3]
    · rw [if_neg hg, if_neg hg, if_neg hg]

theorem applyEvent_global (b : Balances) (e : Event) :
    (applyEvent b e).global_net = applyDeltas (eventDeltas e) b.global_net := by
  cases e with
  | tx t => exact applyTxDebts_global t.group_id t.debts b
  | pay p =>
    show (update_balances_for_debt b p.group_id p.from_user_id p.to_user_id
        (-p.amount_cents)).global_net = _
    rw [update_balances_global, eventDeltas, applyDeltas_cons3, applyDeltas_nil]

theorem applyEvent_byGroup (b : Balances) (e : Event) (g : String) :
    (applyEvent b e).byGroup g = applyDeltas (eventGroupDeltas g e) (b.byGroup g) := by
  cases e with
  | tx t =>
    rw [eventGroupDeltas]
    show (applyTxDebts b t.group_id t.debts).byGroup g = _
    rw [applyTxDebts_byGroup]
    by_cases hg : g = t.group_id
    · rw [if_pos hg, if_pos (show eventGroupId (.tx t) = g from hg.symm)]
      rfl
    · rw [if_neg hg, if_neg (fun h => hg ((show eventGroupId (.tx t) = g from h).symm)),
        applyDeltas_nil]
  | pay p =>
    rw [eventGroupDeltas]
    show (update_balances_for_debt b p.group_id p.from_user_id p.to_user_id
        (-p.amount_cents)).byGroup g = _
    rw [update_balances_byGroup]
    by_cases hg : g = p.group_id
    · rw [if_pos hg, if_pos (show eventGroupId (.pay p) = g from hg.symm)]
      rw [eventDeltas, applyDeltas_cons3, applyDeltas_nil]
    · rw [if_neg hg, if_neg (fun h => hg ((show eventGroupId (.pay p) = g from h).symm)),
        applyDeltas_nil]

theorem foldl_applyEvent_global (h : List Event) :
    ∀ b : Balances, (h.foldl applyEvent b).global_net
      = applyDeltas (h.flatMap eventDeltas) b.global_net := by
  induction h with
  | nil => intro b; rfl
  | cons e h ih =>
    intro b
    rw [List.foldl_cons, ih, List.flatMap_cons, applyDeltas_append, applyEvent_global]

theorem foldl_applyEvent_byGroup (h : List Event) (g : String) :
    ∀ b : Balances, (h.foldl applyEvent b).byGroup g
      = applyDeltas (h.flatMap (eventGroupDeltas g)) (b.byGroup g) := by
  induction h with
  | nil => intro b; rfl
  | cons e h ih =>
    intro b
    rw [List.foldl_cons, ih, List.flatMap_cons, applyDeltas_append, applyEvent_byGroup]

theorem rebuild_as_events (store : Store) :
    (tool_rebuild_balances store).balances
      = ((store.transactions.map Event.tx) ++ (store.payments.map Event.pay)).foldl
          applyEvent emptyBalances := by
  show store.payments.foldl _ (store.transactions.foldl _ emptyBalances) = _
  rw [List.foldl_append, List.foldl_map, List.foldl_map]
  rfl

theorem signedSum_partition (F : Event → List Delta) (a b : String) :
    ∀ h : List Event,
      signedSum a b (((txEvents h).map Event.tx).flatMap F)
        + signedSum a b (((payEvents h).map Event.pay).flatMap F)
      = signedSum a b (h.flatMap F) := by
  intro h
  induction h with
  | nil => rfl
  | cons e h ih =>
    cases e with
    | tx t =>
      show signedSum a b (((t :: txEvents h).map Event.tx).flatMap F)
          + signedSum a b (((payEvents h).map Event.pay).flatMap F)
        = signedSum a b ((Event.tx t :: h).flatMap F)
      rw [List.map_cons, List.flatMap_cons, List.flatMap_cons, signedSum_append,
        signedSum_append]
      omega
    | pay p =>
      show signedSum a b (((txEvents h).map Event.tx).flatMap F)
          + signedSum a b (((p :: payEvents h).map Event.pay).flatMap F)
        = signedSum a b ((Event.pay p :: h).flatMap F)
      rw [List.map_cons, List.flatMap_cons, List.flatMap_cons, signedSum_append,
        signedSum_append]
      omega

/-- C1: for every event history, `tool_rebuild_balances` — which resets the
balance graph and replays every transaction's debts and then every payment
negated, through `apply_net_delta`, in append order — produces exactly the
same edges as the balance graph maintained incrementally by applying each
event's deltas at recording time, for the net map of every group and for the
global net map. -/
theorem rebuild_balances_matches_incremental (h : List Event) (g a b : String) :
    (tool_rebuild_balances (storeOfHistory h)).balances.byGroup g a b
      = (storeOfHistory h).balances.byGroup g a b
    ∧ (tool_rebuild_balances (storeOfHistory h)).balances.global_net a b
      = (storeOfHistory h).balances.global_net a b := by
  rw [rebuild_as_events]
  have hinc : (storeOfHistory h).balances = h.foldl applyEvent emptyBalances := rfl
  have htx : (storeOfHistory h).transactions = txEvents h := rfl
  have hpay : (storeOfHistory h).payments = payEvents h := rfl
  rw [hinc, htx, hpay]
  constructor
  · rw [foldl_applyEvent_byGroup, foldl_applyEvent_byGroup]
    show applyDeltas _ emptyNet a b = applyDeltas _ emptyNet a b
    apply applyDeltas_congr_signedSum
    intro x y
    rw [List.flatMap_append, signedSum_append]
    exact signedSum_partition (eventGroupDeltas g) x y h
  · rw [foldl_applyEvent_global, foldl_applyEvent_global]
    show applyDeltas _ emptyNet a b = applyDeltas _ emptyNet a b
    apply applyDeltas_congr_signedSum
    intro x y
    rw [List.flatMap_append, signedSum_append]
    exact signedSum_partition eventDeltas x y h

/-- The per-participant share dict built by `tool_add_transaction_equal_split`:
`shares[uid] = base + (1 if i < rem else 0)` assigned in list order, with later
occurrences of the same id overwriting earlier ones (Python dict semantics).
`i` is the running `enumerate` index, `m` the dict built so far. -/
def buildShares (base rem : Int) : List String → Nat → (String → Int) → (String → Int)
  | [], _, m => m
  | uid :: rest, i, m =>
      buildShares base rem rest (i + 1)
        (fun x => if x = uid then base + (if (i : Int) < rem then 1 else 0) else m x)

/-- The debt-building loop shared verbatim by both transaction tools: one debt
`participant -> payer` per non-payer share entry with positive amount. -/
def debtsFromShares (paid_by : String) : List Share → List Debt
  | [] => []
  | s :: rest =>
      if s.user_id = paid_by then debtsFromShares paid_by rest
      else if 0 < s.share_amount_cents then
        { from_user_id := s.user_id, to_user_id := paid_by,
          amount_cents := s.share_amount_cents } :: debtsFromShares paid_by rest
      else debtsFromShares paid_by rest

/-- The share list recorded by `tool_add_transaction_equal_split`
(`[{user_id: uid, share_amount_cents: shares[uid]} for uid in participant_ids]`). -/
def equalSplitShares (total_cents : Int) (participant_ids : List String) : List Share :=
  let base := total_cents.ediv participant_ids.length
  let rem := total_cents.emod participant_ids.length
  let shareOf := buildShares base rem participant_ids 0 (fun _ => 0)
  participant_ids.map (fun uid => { user_id := uid, share_amount_cents := shareOf uid })

/-- The transaction record built by `tool_add_transaction_equal_split`. -/
def equalSplitTx (group_id : String) (total_cents : Int) (paid_by : String)
    (participant_ids : List String) : Tx :=
  let share_entries := equalSplitShares total_cents participant_ids
  { group_id := group_id, total_amount_cents := total_cents, paid_by := paid_by,
    split := { method := "equal", participant_ids := participant_ids,
               shares := share_entries },
    debts := debtsFromShares paid_by share_entries }

/-- Append a transaction and apply its debt deltas to the balance graph
(`store["transactions"].append(tx)` plus the `update_balances_for_debt` loop). -/
def recordTx (store : Store) (tx : Tx) : Store :=
  { store with transactions := store.transactions ++ [tx],
               balances := applyTxDebts store.balances tx.group_id tx.debts }

/-- `tool_add_transaction_equal_split` of `data_tools.py` over cent amounts.
`.ok` carries the store written by `write_json_atomic` together with the
transaction; `.error` is a raised `ValueError` (no write happens). -/
def tool_add_transaction_equal_split (store : Store) (group_id : String)
    (total_amount_cents : Int) (paid_by : String) (participant_ids : List String) :
    Except String (Store × Tx) := do
  require_group store group_id
  require_user store paid_by
  if paid_by ∈ participant_ids then pure () else throw "paid_by must be in participant_ids"
  require_users store participant_ids
  if participant_ids.length = 0 then throw "participant_ids must be non-empty"
  let tx := equalSplitTx group_id total_amount_cents paid_by participant_ids
  pure (recordTx store tx, tx)

/-- One element of the `shares` argument of `tool_add_transaction_custom_split`,
already carrying its cent amount (the `share_amount` dollar variant goes
through `to_cents` first and is likewise an integer by the time it is used;
a missing/empty `user_id` is represented by `""`, which Python treats as
falsy). -/
structure ShareIn where
  user_id : String
  share_amount_cents : Int
  deriving DecidableEq, Repr

/-- The share-validation loop of `tool_add_transaction_custom_split`: rejects
empty user ids, unregistered users and negative amounts, and collects the
normalized share entries in order. -/
def processShares (store : Store) : List ShareIn → Except String (List Share)
  | [] => .ok []
  | e :: rest =>
      if e.user_id = "" then .error "Each share entry must include a user_id"
      else if userExists store e.user_id = false then
        .error ("Unknown user_id in shares: " ++ e.user_id)
      else if e.share_amount_cents < 0 then .error "share_amount_cents must be >= 0"
      else do
        let tail ← processShares store rest
        pure ({ user_id := e.user_id, share_amount_cents := e.share_amount_cents } :: tail)

/-- Sum of the amounts of a share-entry list (the `total_cents` accumulator). -/
def sharesTotal (es : List Share) : Int :=
  (es.map (fun s => s.share_amount_cents)).sum

/-- Append a zero share for the payer when the payer has no explicit entry. -/
def ensurePayer (es : List Share) (paid_by : String) : List Share :=
  if es.any (fun s => s.user_id = paid_by) then es
  else es ++ [{ user_id := paid_by, share_amount_cents := 0 }]

/-- The transaction record built by `tool_add_transaction_custom_split` from
the validated share entries (item metadata elided: it never affects shares,
debts or balances). -/
def customSplitTx (group_id paid_by : String) (entries : List Share) : Tx :=
  let share_entries := ensurePayer entries paid_by
  { group_id := group_id, total_amount_cents := sharesTotal entries, paid_by := paid_by,
    split := { method := "custom",
               participant_ids := share_entries.map (fun s => s.user_id),
               shares := share_entries },
    debts := debtsFromShares paid_by share_entries }

/-- `tool_add_transaction_custom_split` of `data_tools.py` over cent amounts. -/
def tool_add_transaction_custom_split (store : Store) (group_id paid_by : String)
    (shares : List ShareIn) : Except String (Store × Tx) := do
  require_group store group_id
  require_user store paid_by
  let entries ← processShares store shares
  if sharesTotal entries ≤ 0 then throw "Total share amount must be greater than zero"
  let tx := customSplitTx group_id paid_by entries
  pure (recordTx store tx, tx)

/-- `tool_add_payment` of `data_tools.py` over cent amounts: validates group
and both users, requires a positive amount, appends the payment and applies
the negated delta to both balance scopes. -/
def tool_add_payment (store : Store) (group_id from_user_id to_user_id : String)
    (amount_cents : Int) : Except String Store := do
  require_group store group_id
  require_user store from_user_id
  require_user store to_user_id
  if amount_cents ≤ 0 then throw "Payment amount must be > 0"
  let payment : Payment := { group_id := group_id, from_user_id := from_user_id,
                             to_user_id := to_user_id, amount_cents := amount_cents }
  pure { store with
          payments := store.payments ++ [payment],
          balances := update_balances_for_debt store.balances group_id from_user_id
            to_user_id (-amount_cents) }

theorem except_bind_ok {A B : Type} (a : A) (k : A → Except String B) :
    ((Except.ok a : Except String A) >>= k) = k a := rfl

theorem except_bind_error {A B : Type} (msg : String) (k : A → Except String B) :
    ((Except.error msg : Except String A) >>= k) = Except.error msg := rfl

theorem except_pure {A : Type} (a : A) : (pure a : Except String A) = Except.ok a := rfl

theorem except_throw {A : Type} (msg : String) :
    (throw msg : Except String A) = Except.error msg := rfl

/-- `sum(debts[*].amount_cents)`. -/
def debtsTotal : List Debt → Int
  | [] => 0
  | d :: rest => d.amount_cents + debtsTotal rest

/-- The payer's recorded share: sum of the `share_amount_cents` of the share
entries whose `user_id` is the payer. -/
def payerShareTotal (paid_by : String) : List Share → Int
  | [] => 0
  | s :: rest =>
      (if s.user_id = paid_by then s.share_amount_cents else 0)
        + payerShareTotal paid_by rest

theorem sharesTotal_nil : sharesTotal [] = 0 := rfl

theorem sharesTotal_cons (s : Share) (rest : List Share) :
    sharesTotal (s :: rest) = s.share_amount_cents + sharesTotal rest := by
  simp [sharesTotal]

/-- Core conservation fact about the debt-building loop: debts plus the
payer's entries account for the whole share list, provided no entry is
negative (negative entries are rejected upstream). -/
theorem debtsFromShares_conservation (paid_by : String) :
    ∀ es : List Share, (∀ s ∈ es, 0 ≤ s.share_amount_cents) →
      debtsTotal (debtsFromShares paid_by es) + payerShareTotal paid_by es
        = sharesTotal es := by
  intro es
  induction es with
  | nil => intro _; rfl
  | cons s rest ih =>
    intro h
    have hs := h s (List.mem_cons_self s rest)
    have hrest := ih (fun x hx => h x (List.mem_cons_of_mem _ hx))
    rw [sharesTotal_cons, debtsFromShares, payerShareTotal]
    by_cases hp : s.user_id = paid_by
    · rw [if_pos hp, if_pos hp]
      omega
    · rw [if_neg hp, if_neg hp]
      by_cases hpos : 0 < s.share_amount_cents
      · rw [if_pos hpos, debtsTotal]
        dsimp only
        omega
      · rw [if_neg hpos]
        omega

theorem processShares_ok_nonneg (store : Store) :
    ∀ (l : List ShareIn) (es : List Share), processShares store l = .ok es →
      ∀ s ∈ es, 0 ≤ s.share_amount_cents := by
  intro l
  induction l with
  | nil =>
    intro es h s hs
    simp only [processShares] at h
    cases h
    simp at hs
  | cons e rest ih =>
    intro es h s hs
    simp only [processShares] at h
    split at h
    · cases h
    · split at h
      · cases h
      · split at h
        · cases h
        · rename_i hneg
          cases hrec : processShares store rest with
          | error msg => rw [hrec] at h; cases h
          | ok tail =>
            rw [hrec, except_bind_ok] at h
            rw [except_pure] at h
            cases h
            rcases List.mem_cons.mp hs with hhd | htl
            · rw [hhd]
              simpa using le_of_not_lt hneg
            · exact ih tail hrec s htl

theorem ensurePayer_nonneg (es : List Share) (paid_by : String)
    (h : ∀ s ∈ es, 0 ≤ s.share_amount_cents) :
    ∀ s ∈ ensurePayer es paid_by, 0 ≤ s.share_amount_cents := by
  intro s hs
  unfold ensurePayer at hs
  split at hs
  · exact h s hs
  · rcases List.mem_append.mp hs with hl | hr
    · exact h s hl
    · simp at hr
      rw [hr]

theorem ensurePayer_total (es : List Share) (paid_by : String) :
    sharesTotal (ensurePayer es paid_by) = sharesTotal es := by
  unfold ensurePayer
  split
  · rfl
  · simp [sharesTotal]

theorem buildShares_not_mem (base rem : Int) :
    ∀ (l : List String) (i : Nat) (m : String → Int) (uid : String), uid ∉ l →
      buildShares base rem l i m uid = m uid := by
  intro l
  induction l with
  | nil => intro i m uid _; rfl
  | cons v rest ih =>
    intro i m uid hmem
    rw [buildShares]
    rw [ih (i + 1) _ uid (fun hm => hmem (List.mem_cons_of_mem _ hm))]
    rw [if_neg (fun he => hmem (by rw [he]; exact List.mem_cons_self v rest))]

theorem buildShares_nonneg (base rem : Int) (hb : 0 ≤ base) :
    ∀ (l : List String) (i : Nat) (m : String → Int), (∀ u, 0 ≤ m u) →
      ∀ u, 0 ≤ buildShares base rem l i m u := by
  intro l
  induction l with
  | nil => intro i m hm u; exact hm u
  | cons v rest ih =>
    intro i m hm u
    rw [buildShares]
    apply ih
    intro w
    dsimp only
    split
    · split <;> omega
    · exact hm w

/-- The share list produced for a duplicate-free participant list, written
positionally: participant `i` gets `base + 1` when `i < rem`, else `base`. -/
def indexedShares (base rem : Int) : List String → Nat → List Share
  | [], _ => []
  | uid :: rest, i =>
      { user_id := uid, share_amount_cents := base + (if (i : Int) < rem then 1 else 0) }
        :: indexedShares base rem rest (i + 1)

theorem buildShares_map_nodup (base rem : Int) :
    ∀ (l : List String) (i : Nat) (m : String → Int), l.Nodup →
      l.map (fun uid => Share.mk uid (buildShares base rem l i m uid))
        = indexedShares base rem l i := by
  intro l
  induction l with
  | nil => intro i m _; rfl
  | cons v rest ih =>
    intro i m hnd
    rw [List.map_cons]
    have hv : v ∉ rest := (List.nodup_cons.mp hnd).1
    have hrest : rest.Nodup := (List.nodup_cons.mp hnd).2
    have hhead : buildShares base rem (v :: rest) i m v
        = base + (if (i : Int) < rem then 1 else 0) := by
      rw [buildShares, buildShares_not_mem base rem rest _ _ v hv]
      simp
    have htail : rest.map
          (fun uid => Share.mk uid (buildShares base rem (v :: rest) i m uid))
        = rest.map (fun uid => Share.mk uid (buildShares base rem rest (i + 1)
            (fun x => if x = v then base + (if (i : Int) < rem then 1 else 0) else m x)
            uid)) := rfl
    rw [hhead, htail, ih (i + 1) _ hrest]
    rfl

theorem indexedShares_total (base rem : Int) :
    ∀ (l : List String) (i : Nat),
      sharesTotal (indexedShares base rem l i)
        = (l.length : Int) * base
          + (if rem ≤ (i : Int) then 0 else min (rem - (i : Int)) (l.length : Int)) := by
  intro l
  induction l with
  | nil =>
    intro i
    simp only [indexedShares, sharesTotal_nil, List.length_nil, Nat.cast_zero, zero_mul,
      zero_add]
    rcases le_or_lt rem (i : Int) with h | h
    · rw [if_pos h]
    · rw [if_neg (by omega), min_eq_right (by omega : (0 : Int) ≤ rem - (i : Int))]
  | cons v rest ih =>
    intro i
    rw [indexedShares, sharesTotal_cons, ih (i + 1)]
    have hlen : ((v :: rest).length : Int) = (rest.length : Int) + 1 := by
      simp
    rw [hlen]
    have hL : (0 : Int) ≤ (rest.length : Int) := Int.natCast_nonneg _
    have hi : ((i + 1 : Nat) : Int) = (i : Int) + 1 := by push_cast; ring
    rw [hi]
    have hmul : ((rest.length : Int) + 1) * base = (rest.length : Int) * base + base := by
      ring
    rw [hmul]
    dsimp only
    rcases le_or_lt rem (i : Int) with hri | hri
    · rw [if_neg (by omega : ¬(i : Int) < rem), if_pos (by omega : rem ≤ (i : Int) + 1),
        if_pos hri]
      ring
    · rw [if_pos hri, if_neg (by omega : ¬rem ≤ (i : Int))]
      rcases le_or_lt rem ((i : Int) + 1) with hri1 | hri1
      · rw [if_pos hri1]
        have hrem : rem - (i : Int) = 1 := by omega
        rw [hrem, min_eq_left (by omega)]
        ring
      · rw [if_neg (by omega : ¬rem ≤ (i : Int) + 1)]
        have hminstep : min (rem - (i : Int)) ((rest.length : Int) + 1)
            = min (rem - ((i : Int) + 1)) (rest.length : Int) + 1 := by
          rcases le_total (rem - ((i : Int) + 1)) (rest.length : Int) with hc | hc
          · rw [min_eq_left hc, min_eq_left (by omega)]
            ring
          · rw [min_eq_right hc, min_eq_right (by omega)]
        rw [hminstep]
        ring

theorem equalSplitShares_total (total : Int) (pids : List String)
    (hnd : pids.Nodup) (hne : pids ≠ []) :
    sharesTotal (equalSplitShares total pids) = total := by
  unfold equalSplitShares
  rw [buildShares_map_nodup _ _ _ _ _ hnd, indexedShares_total]
  have hn : 0 < (pids.length : Int) := by
    cases pids with
    | nil => exact absurd rfl hne
    | cons v rest => simp
  have hdm : (pids.length : Int) * total.ediv (pids.length : Int)
      + total.emod (pids.length : Int) = total :=
    Int.ediv_add_emod total (pids.length : Int)
  have hr0 : 0 ≤ total.emod (pids.length : Int) := Int.emod_nonneg total (by omega)
  have hrlt : total.emod (pids.length : Int) < (pids.length : Int) :=
    Int.emod_lt_of_pos total hn
  rw [Nat.cast_zero]
  by_cases hz : total.emod (pids.length : Int) ≤ (0 : Int)
  · rw [if_pos hz]
    have : total.emod (pids.length : Int) = 0 := le_antisymm hz hr0
    rw [this] at hdm
    omega
  · rw [if_neg hz]
    have hsub : total.emod (pids.length : Int) - 0 = total.emod (pids.length : Int) := by
      ring
    rw [hsub, min_eq_left (le_of_lt hrlt)]
    omega

theorem require_group_ok {store : Store} {gid : String}
    (hg : groupExists store gid = true) : require_group store gid = .ok () := by
  rw [require_group, if_pos hg]

theorem require_group_error {store : Store} {gid : String}
    (hg : groupExists store gid = false) :
    require_group store gid = .error ("Unknown group_id: " ++ gid) := by
  rw [require_group, if_neg (by rw [hg]; exact Bool.false_ne_true)]

theorem require_user_ok {store : Store} {uid : String}
    (hu : userExists store uid = true) : require_user store uid = .ok () := by
  rw [require_user, if_pos hu]

theorem require_user_error {store : Store} {uid : String}
    (hu : userExists store uid = false) :
    require_user store uid = .error ("Unknown user_id: " ++ uid) := by
  rw [require_user, if_neg (by rw [hu]; exact Bool.false_ne_true)]

theorem equal_split_ok_inv (store : Store) (gid : String) (total : Int) (paid : String)
    (pids : List String) (s2 : Store) (tx : Tx)
    (h : tool_add_transaction_equal_split store gid total paid pids = .ok (s2, tx)) :
    tx = equalSplitTx gid total paid pids ∧ pids ≠ [] ∧ s2 = recordTx store tx := by
  unfold tool_add_transaction_equal_split at h
  by_cases hg : groupExists store gid
  · rw [require_group_ok hg, except_bind_ok] at h
    by_cases hu : userExists store paid
    · rw [require_user_ok hu, except_bind_ok] at h
      by_cases hmem : paid ∈ pids
      · rw [if_pos hmem, except_pure, except_bind_ok] at h
        cases hru : require_users store pids with
        | error msg => rw [hru, except_bind_error] at h; exact Except.noConfusion h
        | ok u =>
          cases u
          rw [hru, except_bind_ok] at h
          by_cases hlen : pids.length = 0
          · rw [if_pos hlen, except_throw, except_bind_error] at h
            exact Except.noConfusion h
          · rw [if_neg hlen, except_pure, except_bind_ok] at h
            simp only [except_pure, Except.ok.injEq, Prod.mk.injEq] at h
            refine ⟨h.2.symm, fun he => hlen (by rw [he]; rfl), ?_⟩
            rw [← h.1, h.2]
      · rw [if_neg hmem, except_throw, except_bind_error] at h
        exact Except.noConfusion h
    · rw [require_user_error (Bool.not_eq_true _ ▸ hu : userExists store paid = false),
        except_bind_error] at h
      exact Except.noConfusion h
  · rw [require_group_error (Bool.not_eq_true _ ▸ hg : groupExists store gid = false),
      except_bind_error] at h
    exact Except.noConfusion h

theorem custom_split_ok_inv (store : Store) (gid paid : String) (shares : List ShareIn)
    (s2 : Store) (tx : Tx)
    (h : tool_add_transaction_custom_split store gid paid shares = .ok (s2, tx)) :
    ∃ entries : List Share, processShares store shares = .ok entries
      ∧ 0 < sharesTotal entries
      ∧ tx = customSplitTx gid paid entries
      ∧ s2 = recordTx store tx := by
  unfold tool_add_transaction_custom_split at h
  by_cases hg : groupExists store gid
  · rw [require_group_ok hg, except_bind_ok] at h
    by_cases hu : userExists store paid
    · rw [require_user_ok hu, except_bind_ok] at h
      cases hps : processShares store shares with
      | error msg => rw [hps, except_bind_error] at h; exact Except.noConfusion h
      | ok entries =>
        rw [hps, except_bind_ok] at h
        by_cases htot : sharesTotal entries ≤ 0
        · rw [if_pos htot, except_throw, except_bind_error] at h
          exact Except.noConfusion h
        · rw [if_neg htot, except_pure, except_bind_ok] at h
          simp only [except_pure, Except.ok.injEq, Prod.mk.injEq] at h
          exact ⟨entries, rfl, by omega, h.2.symm, by rw [← h.1, h.2]⟩
    · rw [require_user_error (Bool.not_eq_true _ ▸ hu : userExists store paid = false),
        except_bind_error] at h
      exact Except.noConfusion h
  · rw [require_group_error (Bool.not_eq_true _ ▸ hg : groupExists store gid = false),
      except_bind_error] at h
    exact Except.noConfusion h

theorem add_payment_ok_inv (store : Store) (gid a b : String) (amt : Int) (s2 : Store)
    (h : tool_add_payment store gid a b amt = .ok s2) :
    s2 = { store with
            payments := store.payments
              ++ [{ group_id := gid, from_user_id := a, to_user_id := b,
                    amount_cents := amt }],
            balances := update_balances_for_debt store.balances gid a b (-amt) } := by
  unfold tool_add_payment at h
  by_cases hg : groupExists store gid
  · rw [require_group_ok hg, except_bind_ok] at h
    by_cases ha : userExists store a
    · rw [require_user_ok ha, except_bind_ok] at h
      by_cases hb : userExists store b
      · rw [require_user_ok hb, except_bind_ok] at h
        by_cases hamt : amt ≤ 0
        · rw [if_pos hamt, except_throw, except_bind_error] at h
          exact Except.noConfusion h
        · rw [if_neg hamt, except_pure, except_bind_ok] at h
          simp only [except_pure, Except.ok.injEq] at h
          exact h.symm
      · rw [require_user_error (Bool.not_eq_true _ ▸ hb : userExists store b = false),
          except_bind_error] at h
        exact Except.noConfusion h
    · rw [require_user_error (Bool.not_eq_true _ ▸ ha : userExists store a = false),
        except_bind_error] at h
      exact Except.noConfusion h
  · rw [require_group_error (Bool.not_eq_true _ ▸ hg : groupExists store gid = false),
      except_bind_error] at h
    exact Except.noConfusion h

/-- A small concrete store: users `A`, `B`, `C` registered; one group `g`
whose members are `A` and `B` only. -/
def demoStore : Store :=
  { users := [{ id := "A", name := "Alice" }, { id := "B", name := "Bob" },
              { id := "C", name := "Carol" }],
    groups := [{ id := "g", name := "Trip", member_ids := ["A", "B"] }],
    transactions := [], payments := [], balances := emptyBalances }

theorem equalSplitShares_nonneg (total : Int) (pids : List String) (h0 : 0 ≤ total) :
    ∀ s ∈ equalSplitShares total pids, 0 ≤ s.share_amount_cents := by
  intro s hs
  unfold equalSplitShares at hs
  rcases List.mem_map.mp hs with ⟨uid, _, heq⟩
  rw [← heq]
  exact buildShares_nonneg _ _ (Int.ediv_nonneg h0 (Int.natCast_nonneg _)) pids 0 _
    (fun _ => le_refl 0) uid

/-- C3 counterexample: `tool_add_transaction_equal_split` performs no sign
check on the total, and a negative total produces a recorded transaction
violating conservation: total `-1` cent over `[A, B]` yields shares
`{A: 0, B: -1}`, no debts (only strictly positive shares become debts), so
`sum(debts) + share(paid_by) = 0 ≠ -1 = total_amount_cents`. -/
theorem conservation_counterexample :
    (tool_add_transaction_equal_split demoStore "g" (-1) "A" ["A", "B"]).map
        (fun r => (debtsTotal r.2.debts + payerShareTotal r.2.paid_by r.2.split.shares,
                   r.2.total_amount_cents))
      = .ok (0, -1)
    ∧ (0 : Int) ≠ -1 := by
  exact ⟨rfl, by decide⟩

/-- C3 (amended): for every transaction record produced by
`record_custom_split`, and for every one produced by `record_equal_split`
whose total is nonnegative and whose participant list is duplicate-free, the
sum of its debts' `amount_cents` plus the payer's recorded share equals the
transaction's `total_amount_cents`.  (A negative equal-split total, or a
participant list repeating the payer, breaks the equation — see the
counterexample.) -/
theorem conservation_of_recorded_transactions :
    (∀ (store : Store) (gid : String) (total : Int) (paid : String)
        (pids : List String) (s2 : Store) (tx : Tx),
      tool_add_transaction_equal_split store gid total paid pids = .ok (s2, tx) →
      0 ≤ total → pids.Nodup →
      debtsTotal tx.debts + payerShareTotal tx.paid_by tx.split.shares
        = tx.total_amount_cents)
    ∧ (∀ (store : Store) (gid paid : String) (shares : List ShareIn)
        (s2 : Store) (tx : Tx),
      tool_add_transaction_custom_split store gid paid shares = .ok (s2, tx) →
      debtsTotal tx.debts + payerShareTotal tx.paid_by tx.split.shares
        = tx.total_amount_cents) := by
  constructor
  · intro store gid total paid pids s2 tx hok h0 hnd
    obtain ⟨htx, hne, _⟩ := equal_split_ok_inv store gid total paid pids s2 tx hok
    rw [htx]
    simp only [equalSplitTx]
    exact (debtsFromShares_conservation paid _
        (equalSplitShares_nonneg total pids h0)).trans
      (equalSplitShares_total total pids hnd hne)
  · intro store gid paid shares s2 tx hok
    obtain ⟨entries, hps, _, htx, _⟩ :=
      custom_split_ok_inv store gid paid shares s2 tx hok
    rw [htx]
    simp only [customSplitTx]
    exact (debtsFromShares_conservation paid _
        (ensurePayer_nonneg _ _ (processShares_ok_nonneg store shares entries hps))).trans
      (ensurePayer_total entries paid)

theorem conservation_of_recorded_transactions_witness :
    debtsTotal (equalSplitTx "g" 1000 "A" ["A", "B", "C"]).debts
      + payerShareTotal (equalSplitTx "g" 1000 "A" ["A", "B", "C"]).paid_by
          (equalSplitTx "g" 1000 "A" ["A", "B", "C"]).split.shares
      = (equalSplitTx "g" 1000 "A" ["A", "B", "C"]).total_amount_cents :=
  conservation_of_recorded_transactions.1 demoStore "g" 1000 "A" ["A", "B", "C"]
    (recordTx demoStore (equalSplitTx "g" 1000 "A" ["A", "B", "C"]))
    (equalSplitTx "g" 1000 "A" ["A", "B", "C"]) rfl (by decide) (by decide)

theorem indexedShares_get (base rem : Int) :
    ∀ (l : List String) (i j : Nat) (hj : j < l.length),
      (indexedShares base rem l i).get? j
        = some { user_id := l.get ⟨j, hj⟩,
                 share_amount_cents :=
                   base + (if ((i + j : Nat) : Int) < rem then 1 else 0) } := by
  intro l
  induction l with
  | nil => intro i j hj; exact absurd hj (Nat.not_lt_zero j)
  | cons v rest ih =>
    intro i j hj
    cases j with
    | zero =>
      show some _ = some _
      have : i + 0 = i := rfl
      rw [this]
      rfl
    | succ k =>
      show (indexedShares base rem rest (i + 1)).get? k = _
      rw [ih (i + 1) k (by simpa using hj)]
      have harith : i + 1 + k = i + (k + 1) := by omega
      rw [harith]
      rfl

/-- C4 counterexample: with a participant list repeating the payer
(`[A, A, B]`, total 1000), the Python share dict is overwritten on the second
occurrence of `A`, so the first participant's recorded share is 333, not
`base + 1 = 334` as the claim's formula requires for the first
`remainder = 1` participants. -/
theorem equal_split_formula_counterexample :
    (tool_add_transaction_equal_split demoStore "g" 1000 "A" ["A", "A", "B"]).map
        (fun r => r.2.split.shares)
      = .ok [{ user_id := "A", share_amount_cents := 333 },
             { user_id := "A", share_amount_cents := 333 },
             { user_id := "B", share_amount_cents := 333 }]
    ∧ (1000 : Int).ediv 3 = 333
    ∧ (1000 : Int).emod 3 = 1
    ∧ (333 : Int) ≠ (1000 : Int).ediv 3 + 1 := by
  refine ⟨rfl, by decide, by decide, by decide⟩

/-- C4 (amended): for every equal-split transaction over a non-empty,
duplicate-free participant list of length `n` with total `total_cents`,
letting `base = total_cents div n` and `rem = total_cents mod n`, the
recorded share of the `j`-th participant is `base + 1` when `j < rem` and
`base` otherwise; in particular 1000 cents over `[A, B, C]` yields shares
`A = 334, B = 333, C = 333`.  (With duplicate participants the dict
overwrite breaks the positional formula — see the counterexample.) -/
theorem equal_split_remainder_policy :
    (∀ (store : Store) (gid : String) (total : Int) (paid : String)
        (pids : List String) (s2 : Store) (tx : Tx) (j : Nat) (hj : j < pids.length),
      tool_add_transaction_equal_split store gid total paid pids = .ok (s2, tx) →
      pids.Nodup →
      tx.split.shares.get? j
        = some { user_id := pids.get ⟨j, hj⟩,
                 share_amount_cents :=
                   total.ediv pids.length
                     + (if (j : Int) < total.emod pids.length then 1 else 0) })
    ∧ ((tool_add_transaction_equal_split demoStore "g" 1000 "A" ["A", "B", "C"]).map
          (fun r => r.2.split.shares)
        = .ok [{ user_id := "A", share_amount_cents := 334 },
               { user_id := "B", share_amount_cents := 333 },
               { user_id := "C", share_amount_cents := 333 }]) := by
  constructor
  · intro store gid total paid pids s2 tx j hj hok hnd
    obtain ⟨htx, _, _⟩ := equal_split_ok_inv store gid total paid pids s2 tx hok
    rw [htx]
    simp only [equalSplitTx, equalSplitShares]
    rw [buildShares_map_nodup _ _ _ _ _ hnd, indexedShares_get _ _ pids 0 j hj]
    have : (0 : Nat) + j = j := by omega
    rw [this]
  · rfl

theorem equal_split_remainder_policy_witness :
    (equalSplitTx "g" 1000 "A" ["A", "B", "C"]).split.shares.get? 0
      = some { user_id := ["A", "B", "C"].get ⟨0, by decide⟩,
               share_amount_cents :=
                 (1000 : Int).ediv (["A", "B", "C"].length)
                   + (if ((0 : Nat) : Int) < (1000 : Int).emod (["A", "B", "C"].length)
                      then 1 else 0) } :=
  equal_split_remainder_policy.1 demoStore "g" 1000 "A" ["A", "B", "C"]
    (recordTx demoStore (equalSplitTx "g" 1000 "A" ["A", "B", "C"]))
    (equalSplitTx "g" 1000 "A" ["A", "B", "C"]) 0 (by decide) rfl (by decide)

/-- A net map holding the single edge `A -> B` of 500 cents. -/
def edge500 : NetMap := fun x y => if x = "A" ∧ y = "B" then 500 else 0

/-- `demoStore` with an existing debt edge `A -> B` of 500 cents recorded in
group `g` and globally. -/
def payStore : Store :=
  { demoStore with
      balances := { byGroup := fun g => if g = "g" then edge500 else emptyNet,
                    global_net := edge500 } }

/-- C5: `tool_add_payment` applies a negative delta of the payment amount to
the directed edge `from -> to` of both the group net map and the global net
map; concretely, with an existing edge `A -> B` of 500 cents, a payment of
300 cents leaves `A -> B` at 200, while a payment of 600 cents leaves
`B -> A` at 100 (the debt direction flips on overpayment). -/
theorem record_payment_negative_delta :
    (∀ (store : Store) (gid a b : String) (amt : Int) (s2 : Store),
      tool_add_payment store gid a b amt = .ok s2 →
      (∀ x y, s2.balances.byGroup gid x y
          = apply_net_delta (store.balances.byGroup gid) a b (-amt) x y)
      ∧ (∀ x y, s2.balances.global_net x y
          = apply_net_delta store.balances.global_net a b (-amt) x y))
    ∧ ((tool_add_payment payStore "g" "A" "B" 300).map
          (fun s2 => (s2.balances.byGroup "g" "A" "B", s2.balances.byGroup "g" "B" "A"))
        = .ok (200, 0))
    ∧ ((tool_add_payment payStore "g" "A" "B" 600).map
          (fun s2 => (s2.balances.byGroup "g" "B" "A", s2.balances.byGroup "g" "A" "B"))
        = .ok (100, 0)) := by
  refine ⟨?_, ?_, ?_⟩
  · intro store gid a b amt s2 hok
    rw [add_payment_ok_inv store gid a b amt s2 hok]
    constructor
    · intro x y
      show (update_balances_for_debt store.balances gid a b (-amt)).byGroup gid x y = _
      rw [update_balances_byGroup, if_pos rfl]
    · intro x y
      rfl
  · rfl
  · rfl

/-- The store file contents after a call: the document is rewritten only by
`write_json_atomic`, which runs only on the success path; a raised
`ValueError` leaves the file untouched. -/
def writtenFile (file : Store) (r : Except String Store) : Store :=
  match r with
  | .ok s => s
  | .error _ => file

/-- Same as `writtenFile` for the tools returning the transaction as well. -/
def writtenFileTx (file : Store) (r : Except String (Store × Tx)) : Store :=
  match r with
  | .ok s => s.1
  | .error _ => file

theorem record_payment_negative_delta_witness :
    (∀ x y, (writtenFile payStore (tool_add_payment payStore "g" "A" "B" 300)).balances.byGroup "g" x y
        = apply_net_delta (payStore.balances.byGroup "g") "A" "B" (-300) x y)
    ∧ (∀ x y, (writtenFile payStore (tool_add_payment payStore "g" "A" "B" 300)).balances.global_net x y
        = apply_net_delta payStore.balances.global_net "A" "B" (-300) x y) :=
  record_payment_negative_delta.1 payStore "g" "A" "B" 300
    (writtenFile payStore (tool_add_payment payStore "g" "A" "B" 300)) rfl

/-- C6: every validation failure of a ledger operation is raised before any
mutation of the persisted document — an `.error` result leaves the store file
unchanged — and in particular `tool_add_payment` with a `from_user_id`
absent from the user registry fails with the unknown-user error. -/
theorem validation_failure_leaves_store_unchanged :
    (∀ (store : Store) (gid a b : String) (amt : Int) (msg : String),
      tool_add_payment store gid a b amt = .error msg →
      writtenFile store (tool_add_payment store gid a b amt) = store)
    ∧ (∀ (store : Store) (gid : String) (total : Int) (paid : String)
        (pids : List String) (msg : String),
      tool_add_transaction_equal_split store gid total paid pids = .error msg →
      writtenFileTx store (tool_add_transaction_equal_split store gid total paid pids)
        = store)
    ∧ (∀ (store : Store) (gid paid : String) (shares : List ShareIn) (msg : String),
      tool_add_transaction_custom_split store gid paid shares = .error msg →
      writtenFileTx store (tool_add_transaction_custom_split store gid paid shares)
        = store)
    ∧ (∀ (store : Store) (gid a b : String) (amt : Int),
      groupExists store gid = true → userExists store a = false →
      tool_add_payment store gid a b amt = .error ("Unknown user_id: " ++ a)) := by
  refine ⟨?_, ?_, ?_, ?_⟩
  · intro store gid a b amt msg h
    rw [h]; rfl
  · intro store gid total paid pids msg h
    rw [h]; rfl
  · intro store gid paid shares msg h
    rw [h]; rfl
  · intro store gid a b amt hg hu
    unfold tool_add_payment
    rw [require_group_ok hg, except_bind_ok, require_user_error hu, except_bind_error]

theorem validation_failure_leaves_store_unchanged_witness :
    tool_add_payment demoStore "g" "Z" "B" 100 = .error ("Unknown user_id: " ++ "Z") :=
  validation_failure_leaves_store_unchanged.2.2.2 demoStore "g" "Z" "B" 100 rfl rfl

theorem groupExists_of_find (store : Store) (gid : String) (grp : GroupRec)
    (h : store.groups.find? (fun g => g.id = gid) = some grp) :
    groupExists store gid = true := by
  have hmem := List.mem_of_find?_eq_some h
  have hpred := List.find?_some h
  exact List.any_eq_true.mpr ⟨grp, hmem, hpred⟩

/-- C10: `tool_add_payment` and `tool_add_transaction_custom_split` validate
the referenced users only against the store's global user registry, never
against the group's `member_ids`: a user registered in the store but absent
from the named group's member list is accepted, and the payment or share is
recorded for that user. -/
theorem users_validated_against_registry_not_membership :
    (∀ (store : Store) (gid u v : String) (amt : Int) (grp : GroupRec),
      store.groups.find? (fun g => g.id = gid) = some grp →
      u ∉ grp.member_ids →
      userExists store u = true → userExists store v = true → 0 < amt →
      tool_add_payment store gid u v amt
        = .ok { store with
                 payments := store.payments
                   ++ [{ group_id := gid, from_user_id := u, to_user_id := v,
                         amount_cents := amt }],
                 balances := update_balances_for_debt store.balances gid u v (-amt) })
    ∧ (∀ (store : Store) (gid paid u : String) (c : Int) (grp : GroupRec),
      store.groups.find? (fun g => g.id = gid) = some grp →
      u ∉ grp.member_ids →
      userExists store paid = true → userExists store u = true →
      u ≠ "" → u ≠ paid → 0 < c →
      tool_add_transaction_custom_split store gid paid
          [{ user_id := u, share_amount_cents := c }]
        = .ok (recordTx store (customSplitTx gid paid
                  [{ user_id := u, share_amount_cents := c }]),
               customSplitTx gid paid [{ user_id := u, share_amount_cents := c }])
      ∧ { user_id := u, share_amount_cents := c }
          ∈ (customSplitTx gid paid [{ user_id := u, share_amount_cents := c }]).split.shares
      ∧ { from_user_id := u, to_user_id := paid, amount_cents := c }
          ∈ (customSplitTx gid paid [{ user_id := u, share_amount_cents := c }]).debts) := by
  constructor
  · intro store gid u v amt grp hfind _ hu hv hamt
    unfold tool_add_payment
    rw [require_group_ok (groupExists_of_find store gid grp hfind), except_bind_ok,
      require_user_ok hu, except_bind_ok, require_user_ok hv, except_bind_ok,
      if_neg (by omega : ¬amt ≤ 0), except_pure, except_bind_ok]
    rfl
  · intro store gid paid u c grp hfind _ hpaid hu hne hupaid hc
    have hnotlt : ¬({ user_id := u, share_amount_cents := c } : ShareIn).share_amount_cents
        < 0 := by dsimp only; omega
    have hps : processShares store [{ user_id := u, share_amount_cents := c }]
        = .ok [{ user_id := u, share_amount_cents := c }] := by
      rw [processShares, if_neg hne, if_neg (by simp [hu]), if_neg hnotlt]
      rfl
    have hany : ¬(([{ user_id := u, share_amount_cents := c }] : List Share).any
        (fun s => s.user_id = paid) = true) := by
      simp [hupaid]
    have hep : ensurePayer [{ user_id := u, share_amount_cents := c }] paid
        = [{ user_id := u, share_amount_cents := c },
           { user_id := paid, share_amount_cents := 0 }] := by
      rw [ensurePayer, if_neg hany]
      rfl
    have htotpos : ¬sharesTotal [({ user_id := u, share_amount_cents := c } : Share)] ≤ 0 := by
      rw [sharesTotal_cons, sharesTotal_nil]
      dsimp only
      omega
    refine ⟨?_, ?_, ?_⟩
    · unfold tool_add_transaction_custom_split
      rw [require_group_ok (groupExists_of_find store gid grp hfind), except_bind_ok,
        require_user_ok hpaid, except_bind_ok, hps, except_bind_ok, if_neg htotpos,
        except_pure, except_bind_ok]
      rfl
    · simp only [customSplitTx]
      rw [hep]
      exact List.mem_cons_self _ _
    · simp only [customSplitTx]
      rw [hep, debtsFromShares,
        if_neg (show ¬({ user_id := u, share_amount_cents := c } : Share).user_id = paid
          from hupaid),
        if_pos (show 0 < ({ user_id := u, share_amount_cents := c } : Share).share_amount_cents
          from hc),
        debtsFromShares,
        if_pos (show ({ user_id := paid, share_amount_cents := 0 } : Share).user_id = paid
          from rfl),
        debtsFromShares]
      exact List.mem_cons_self _ _

theorem users_validated_against_registry_not_membership_witness :
    tool_add_payment demoStore "g" "C" "B" 100
      = .ok { demoStore with
               payments := demoStore.payments
                 ++ [{ group_id := "g", from_user_id := "C", to_user_id := "B",
                       amount_cents := 100 }],
               balances := update_balances_for_debt demoStore.balances "g" "C" "B" (-100) } :=
  users_validated_against_registry_not_membership.1 demoStore "g" "C" "B" 100
    { id := "g", name := "Trip", member_ids := ["A", "B"] } rfl (by decide) rfl rfl
    (by decide)

/-- A JSON value, as produced by `json.load`. -/
inductive Json where
  | null : Json
  | bool : Bool → Json
  | num : Int → Json
  | str : String → Json
  | arr : List Json → Json
  | obj : List (String × Json) → Json

/-- The contents of the path handed to `read_json`: no file, a file that is
not syntactically valid JSON (on which `json.load` raises), or a file whose
contents parse to the given JSON value. -/
inductive FileState where
  | missing : FileState
  | invalidSyntax : FileState
  | parsed : Json → FileState

/-- `DEFAULT_STORE` of `data_tools.py` as a JSON document. -/
def DEFAULT_STORE : Json :=
  .obj [("schema_version", .num 1),
        ("app", .obj [("currency_default", .str "CAD")]),
        ("users", .arr []),
        ("groups", .arr []),
        ("transactions", .arr []),
        ("payments", .arr []),
        ("balances", .obj [("updated_at", .null),
                           ("by_group", .obj []),
                           ("global", .obj [("net", .obj [])])])]

/-- `read_json` of `data_tools.py`: a missing file yields a deep copy of
`DEFAULT_STORE`; otherwise the file is parsed by `json.load` and the parsed
value is returned unchanged — there is no schema validation. -/
def read_json : FileState → Except String Json
  | .missing => .ok DEFAULT_STORE
  | .invalidSyntax => .error "json.decoder.JSONDecodeError"
  | .parsed j => .ok j

/-- Key lookup in a JSON object body. -/
def lookupKey (kvs : List (String × Json)) (k : String) : Option Json :=
  (kvs.find? (fun kv => kv.1 = k)).map (fun kv => kv.2)

/-- Modelled from the spec: the on-disk schema of §6 — a valid store document
is a JSON object with an integer `schema_version`, an `app` object, and
`users`, `groups`, `transactions`, `payments` arrays plus a `balances`
object.  `data_tools.py` itself contains no such validation code; this
predicate exists only to state the claim. -/
def isValidStoreDoc : Json → Bool
  | .obj kvs =>
      (match lookupKey kvs "schema_version" with | some (.num _) => true | _ => false)
      && (match lookupKey kvs "app" with | some (.obj _) => true | _ => false)
      && (match lookupKey kvs "users" with | some (.arr _) => true | _ => false)
      && (match lookupKey kvs "groups" with | some (.arr _) => true | _ => false)
      && (match lookupKey kvs "transactions" with | some (.arr _) => true | _ => false)
      && (match lookupKey kvs "payments" with | some (.arr _) => true | _ => false)
      && (match lookupKey kvs "balances" with | some (.obj _) => true | _ => false)
  | _ => false

/-- C8 counterexample: the file `[]` parses as JSON but is not a valid store
document per the schema, yet `read_json` returns it successfully instead of
failing — `read_json` performs no schema validation at all. -/
theorem load_invalid_schema_counterexample :
    read_json (.parsed (.arr [])) = .ok (.arr [])
    ∧ isValidStoreDoc (.arr []) = false := ⟨rfl, rfl⟩

/-- C8 (amended): `read_json` fails only when the file exists but is not
syntactically valid JSON (`json.load` raises); any file that parses — valid
store document or not — is returned as-is with no schema validation, and a
missing file yields the default store. -/
theorem load_fails_only_on_invalid_syntax :
    (∀ j : Json, read_json (.parsed j) = .ok j)
    ∧ read_json .invalidSyntax = .error "json.decoder.JSONDecodeError"
    ∧ read_json .missing = .ok DEFAULT_STORE
    ∧ isValidStoreDoc DEFAULT_STORE = true :=
  ⟨fun _ => rfl, rfl, rfl, rfl⟩
